import Mathlib

/-!
Verification of the qwer runtime-version manager core against its
specification.  Rust strings are modelled as `List Char` (`Str`); the
`BTreeSet`/`BTreeMap`/`HashSet`/`HashMap` containers are modelled as lists
carrying their iteration order, with the insertion operations preserving the
set/map semantics of the originals.  Filesystem state and plugin-script
execution are passed in explicitly (as membership predicates and output
functions), so every operation of the code becomes a pure function.
-/

namespace Qwer

abbrev Str := List Char

/-- One repetition-stripping step loop with explicit fuel; `fuel` is always
instantiated with the length of the subject string, which bounds the number of
possible strips.  Used to model Rust's `str::trim_start_matches`. -/
def stripLoop (pat : Str) : Nat → Str → Str
  | 0, s => s
  | fuel+1, s => if pat.isPrefixOf s ∧ pat ≠ [] then stripLoop pat fuel (s.drop pat.length) else s

/-- Rust `str::trim_start_matches`: repeatedly removes `pat` from the front of
`s` as long as it is a prefix. -/
def trimStartMatches (pat s : Str) : Str := stripLoop pat s.length s

theorem stripLoop_of_not_pre (pat t : Str) (hnp : ¬ pat.isPrefixOf t = true) :
    ∀ f, stripLoop pat f t = t := by
  intro f
  cases f with
  | zero => rfl
  | succ k => rw [stripLoop, if_neg]; rintro ⟨h1, -⟩; exact hnp h1

theorem trimStartMatches_of_not_pre (pat t : Str) (hnp : ¬ pat.isPrefixOf t = true) :
    trimStartMatches pat t = t :=
  stripLoop_of_not_pre pat t hnp _

theorem trimStartMatches_append (pat t : Str) (hp : pat ≠ []) (hnp : ¬ pat.isPrefixOf t = true) :
    trimStartMatches pat (pat ++ t) = t := by
  unfold trimStartMatches
  have hpos : 0 < pat.length := List.length_pos.mpr hp
  obtain ⟨m, hm⟩ : ∃ m, (pat ++ t).length = m + 1 := ⟨(pat ++ t).length - 1, by simp; omega⟩
  rw [hm, stripLoop, if_pos ⟨List.isPrefixOf_iff_prefix.mpr (List.prefix_append pat t), hp⟩,
    List.drop_left]
  exact stripLoop_of_not_pre pat t hnp m

/-! ## The version identifier (`src/src/lib/versions.rs`, `enum Version`) -/

/-- `Version` from `src/src/lib/versions.rs`: `Version(String)` (a remote,
plugin-defined version token), `Ref(String)`, `Path(String)`, `System`. -/
inductive Version where
  | version (token : Str)
  | ref (token : Str)
  | path (token : Str)
  | system
deriving DecidableEq, Repr

/-- `Version::parse`: matches `system` first, then the `ref:` prefix, then the
`path:` prefix, and falls back to a plain remote version token.  The prefix
branches use `trim_start_matches`, which strips the tag repeatedly. -/
def Version.parse (raw : Str) : Version :=
  if raw = "system".data then .system
  else if "ref:".data.isPrefixOf raw then .ref (trimStartMatches "ref:".data raw)
  else if "path:".data.isPrefixOf raw then .path (trimStartMatches "path:".data raw)
  else .version raw

/-- `Version::install_type`. -/
def Version.installType : Version → Str
  | .version _ => "version".data
  | .ref _ => "ref".data
  | .path _ => "path".data
  | .system => "system".data

/-- `Version::version_str`: the raw token, or the empty string for `System`. -/
def Version.versionStr : Version → Str
  | .version t => t
  | .ref t => t
  | .path t => t
  | .system => []

/-- `Version::raw`: the textual rendering (`ref:`/`path:` tags re-attached). -/
def Version.raw : Version → Str
  | .version t => t
  | .ref t => "ref:".data ++ t
  | .path t => "path:".data ++ t
  | .system => "system".data

/-- The side condition under which a `Version` survives the render/parse round
trip: its token must not collide with the concrete syntax of another variant
(a remote token spelled `system` or starting with a `ref:`/`path:` tag, or a
ref/path token starting with its own tag, which the parser strips again). -/
def Version.roundTrippable : Version → Prop
  | .version t => t ≠ "system".data ∧ ¬ "ref:".data.isPrefixOf t ∧ ¬ "path:".data.isPrefixOf t
  | .ref t => ¬ "ref:".data.isPrefixOf t
  | .path t => ¬ "path:".data.isPrefixOf t
  | .system => True

instance (v : Version) : Decidable v.roundTrippable :=
  match v with
  | .version t =>
    inferInstanceAs (Decidable (t ≠ "system".data ∧
      ¬ "ref:".data.isPrefixOf t ∧ ¬ "path:".data.isPrefixOf t))
  | .ref t => inferInstanceAs (Decidable (¬ "ref:".data.isPrefixOf t))
  | .path t => inferInstanceAs (Decidable (¬ "path:".data.isPrefixOf t))
  | .system => inferInstanceAs (Decidable True)

theorem version_parse_ref_append (t : Str) (h : ¬ "ref:".data.isPrefixOf t = true) :
    Version.parse ("ref:".data ++ t) = .ref t := by
  unfold Version.parse
  rw [if_neg, if_pos (List.isPrefixOf_iff_prefix.mpr (List.prefix_append _ t)),
    trimStartMatches_append _ _ (by decide) h]
  intro hsys
  rw [show "ref:".data = ['r','e','f',':'] from rfl,
    show "system".data = ['s','y','s','t','e','m'] from rfl] at hsys
  simp at hsys

theorem version_parse_path_append (t : Str) (h : ¬ "path:".data.isPrefixOf t = true) :
    Version.parse ("path:".data ++ t) = .path t := by
  unfold Version.parse
  have hnref : ¬ ("ref:".data.isPrefixOf ("path:".data ++ t)) = true := by
    intro hh
    rw [show "ref:".data = ['r','e','f',':'] from rfl,
      show "path:".data = ['p','a','t','h',':'] from rfl] at hh
    simp [List.isPrefixOf] at hh
  rw [if_neg, if_neg hnref, if_pos (List.isPrefixOf_iff_prefix.mpr (List.prefix_append _ t)),
    trimStartMatches_append _ _ (by decide) h]
  intro hsys
  rw [show "path:".data = ['p','a','t','h',':'] from rfl,
    show "system".data = ['s','y','s','t','e','m'] from rfl] at hsys
  simp at hsys

/-- C3 (amended): `parse(render(v)) = v` holds for `System`, for `Ref`/`Path`
whose token does not itself start with the `ref:`/`path:` tag, and for `Remote`
whose token is not `system` and does not start with `ref:` or `path:`.  The
unrestricted claim fails: `render(Remote "system") = "system"` parses to
`System`. -/
theorem version_parse_raw_roundtrip (v : Version) (h : v.roundTrippable) :
    Version.parse v.raw = v := by
  cases v with
  | version t =>
    obtain ⟨h1, h2, h3⟩ := h
    unfold Version.parse Version.raw
    rw [if_neg h1, if_neg h2, if_neg h3]
  | ref t => exact version_parse_ref_append t h
  | path t => exact version_parse_path_append t h
  | system => decide

/-- C3, witness: the round trip evaluated on one concrete token per variant. -/
theorem version_parse_raw_roundtrip_witness :
    Version.parse (Version.raw (.version "18.17.1".data)) = .version "18.17.1".data ∧
    Version.parse (Version.raw (.ref "abc".data)) = .ref "abc".data ∧
    Version.parse (Version.raw (.path "/opt/go".data)) = .path "/opt/go".data ∧
    Version.parse (Version.raw .system) = .system :=
  ⟨version_parse_raw_roundtrip _ (by decide), version_parse_raw_roundtrip _ (by decide),
    version_parse_raw_roundtrip _ (by decide), version_parse_raw_roundtrip _ (by decide)⟩

/-- C3, counterexample to the claim as stated: a `Remote` version whose token
is the literal `system` renders to `system`, which parses back to the `System`
variant, not to the original value. -/
theorem version_parse_raw_cex :
    Version.parse (Version.raw (.version "system".data)) ≠ Version.version "system".data := by
  decide

/-! ## String helpers shared by the embeddings

`splitChar` models Rust `str::split(c)` (keeps empty segments, `"" → [""]`),
`trimStr` models `str::trim`, `whitespaceTokens` models
`str::split_whitespace`. -/

def splitChar (sep : Char) : Str → List Str
  | [] => [[]]
  | c :: rest =>
    match splitChar sep rest with
    | [] => [[]]
    | g :: gs => if c = sep then [] :: g :: gs else (c :: g) :: gs

def trimStr (s : Str) : Str :=
  ((s.dropWhile Char.isWhitespace).reverse.dropWhile Char.isWhitespace).reverse

def whitespaceTokens (l : Str) : List Str :=
  (l.splitOnP Char.isWhitespace).filter (fun t => t ≠ [])

/-! ## The version file (`src/src/lib/versions.rs`, `Versions::parse`)

The same line-handling logic appears verbatim in `parse_versions` in
`src/lib/src/versions.rs`; the embedding follows `Versions::parse`, whose
`Version` type the rest of the code uses.  The backing `HashMap` is modelled
as an association list in insertion order (`contains_key` = key search). -/

/-- `VersionsError` from `src/src/lib/versions.rs` (`Io` payload elided). -/
inductive VersionsError where
  | noVersionsFound
  | invalidWorkdir
  | invalidEntry (entry : Str)
  | duplicateEntry (plugin : Str)
  | io
deriving DecidableEq, Repr

abbrev Versions := List (Str × List Version)

instance {ε α : Type} [DecidableEq ε] [DecidableEq α] : DecidableEq (Except ε α) := fun x y =>
  match x, y with
  | .ok a, .ok b => if h : a = b then .isTrue (by rw [h]) else .isFalse (by simp [h])
  | .error a, .error b => if h : a = b then .isTrue (by rw [h]) else .isFalse (by simp [h])
  | .ok _, .error _ => .isFalse (by simp)
  | .error _, .ok _ => .isFalse (by simp)

def containsKey (m : Versions) (k : Str) : Bool := m.any (fun e => e.1 = k)

/-- The line preprocessing of `Versions::parse`: split on newlines, trim,
drop comment lines (leading `#`) and blank lines, strip trailing comments
(first `#`-segment) and trim again. -/
def entryLines (content : Str) : List Str :=
  (((splitChar '\n' content).map trimStr).filter
      (fun l => !(l.head? == some '#') && !(l == []))).map
    (fun l => trimStr ((splitChar '#' l).headD []))

/-- The entry built from one line: first space-separated part maps to the
remaining parts parsed as versions. -/
def versionsEntry (l : Str) : Str × List Version :=
  ((splitChar ' ' l).headD [], ((splitChar ' ' l).drop 1).map Version.parse)

def fieldHead (l : Str) : Str := (splitChar ' ' l).headD []

/-- The entry loop of `Versions::parse`: for each line, split on single
spaces, reject lines with at most one part, reject keys already present,
otherwise insert. -/
def parseLines : Versions → List Str → Except VersionsError Versions
  | acc, [] => .ok acc
  | acc, l :: rest =>
    match splitChar ' ' l with
    | key :: v1 :: vs =>
      if containsKey acc key then .error (.duplicateEntry key)
      else parseLines (acc ++ [(key, (v1 :: vs).map Version.parse)]) rest
    | _ => .error (.invalidEntry l)

/-- `Versions::parse` from `src/src/lib/versions.rs`. -/
def Versions.parse (content : Str) : Except VersionsError Versions :=
  parseLines [] (entryLines content)

theorem containsKey_eq_true (m : Versions) (k : Str) :
    containsKey m k = true ↔ k ∈ m.map Prod.fst := by
  simp only [containsKey, List.any_eq_true, List.mem_map]
  constructor
  · rintro ⟨e, he, hk⟩
    exact ⟨e, he, by simpa using hk⟩
  · rintro ⟨e, he, hk⟩
    exact ⟨e, he, by simpa using hk⟩

theorem parseLines_append (pre : List Str) : ∀ (acc : Versions) (rest : List Str),
    (∀ l ∈ pre, 2 ≤ (splitChar ' ' l).length) →
    (∀ l ∈ pre, fieldHead l ∉ acc.map Prod.fst) →
    (pre.map fieldHead).Nodup →
    parseLines acc (pre ++ rest) = parseLines (acc ++ pre.map versionsEntry) rest := by
  induction pre with
  | nil => intro acc rest _ _ _; simp
  | cons l pre' ih =>
    intro acc rest hlen hkeys hnd
    obtain ⟨key, v1, vs, hsplit⟩ : ∃ a b t, splitChar ' ' l = a :: b :: t := by
      have h2 := hlen l (by simp)
      match hs : splitChar ' ' l with
      | [] => rw [hs] at h2; simp at h2
      | [a] => rw [hs] at h2; simp at h2
      | a :: b :: t => exact ⟨a, b, t, rfl⟩
    have hkey : fieldHead l = key := by simp [fieldHead, hsplit]
    have hnotin : containsKey acc key = false := by
      rw [Bool.eq_false_iff]
      intro hc
      exact hkeys l (by simp) (hkey ▸ (containsKey_eq_true acc key).mp hc)
    have hstep : parseLines acc ((l :: pre') ++ rest) =
        parseLines (acc ++ [(key, (v1 :: vs).map Version.parse)]) (pre' ++ rest) := by
      show parseLines acc (l :: (pre' ++ rest)) = _
      rw [parseLines, hsplit]
      simp [hnotin]
    rw [hstep]
    have hentry : versionsEntry l = (key, (v1 :: vs).map Version.parse) := by
      simp [versionsEntry, hsplit]
    rw [ih (acc ++ [(key, (v1 :: vs).map Version.parse)]) rest
      (fun l' hl' => hlen l' (by simp [hl']))
      ?_ ?_]
    · simp [hentry]
    · intro l' hl'
      simp only [List.map_append, List.mem_append, List.map_cons]
      rintro (h1 | h2)
      · exact hkeys l' (by simp [hl']) h1
      · simp [hentry] at h2
        have hmem : key ∈ List.map fieldHead pre' := h2 ▸ List.mem_map_of_mem fieldHead hl'
        rw [List.map_cons, hkey] at hnd
        exact (List.nodup_cons.mp hnd).1 hmem
    · rw [List.map_cons] at hnd
      exact (List.nodup_cons.mp hnd).2

/-- C8 (amended): `#` begins a comment to end-of-line and blank lines are
ignored (captured by `entryLines`, taken from the source); tokens on a line
are separated by single space characters (not arbitrary whitespace, and
consecutive spaces yield empty tokens); parsing rejects the whole file with
`DuplicateEntry` when a plugin name (first token) recurs, and with
`InvalidEntry` when a processed line has fewer than two space-separated
tokens; otherwise every line maps its first token to the remaining tokens
parsed as version identifiers in order. -/
theorem versions_parse_spec (c : Str) :
    ((∀ l ∈ entryLines c, 2 ≤ (splitChar ' ' l).length) →
      (List.map fieldHead (entryLines c)).Nodup →
      Versions.parse c = .ok ((entryLines c).map versionsEntry)) ∧
    (∀ pre l rest, entryLines c = pre ++ l :: rest →
      (∀ l' ∈ pre, 2 ≤ (splitChar ' ' l').length) →
      (List.map fieldHead pre).Nodup →
      2 ≤ (splitChar ' ' l).length →
      fieldHead l ∈ List.map fieldHead pre →
      Versions.parse c = .error (.duplicateEntry (fieldHead l))) ∧
    (∀ pre l rest, entryLines c = pre ++ l :: rest →
      (∀ l' ∈ pre, 2 ≤ (splitChar ' ' l').length) →
      (List.map fieldHead pre).Nodup →
      (splitChar ' ' l).length ≤ 1 →
      Versions.parse c = .error (.invalidEntry l)) := by
  refine ⟨?_, ?_, ?_⟩
  · intro hlen hnd
    unfold Versions.parse
    rw [show entryLines c = entryLines c ++ [] by simp,
      parseLines_append (entryLines c) [] [] hlen (by simp) hnd]
    simp [parseLines]
  · intro pre l rest hsplit hlen hnd h2 hdup
    unfold Versions.parse
    rw [hsplit, parseLines_append pre [] (l :: rest) hlen (by simp) hnd]
    obtain ⟨key, v1, vs, hs⟩ : ∃ a b t, splitChar ' ' l = a :: b :: t := by
      match hs : splitChar ' ' l with
      | [] => rw [hs] at h2; simp at h2
      | [a] => rw [hs] at h2; simp at h2
      | a :: b :: t => exact ⟨a, b, t, rfl⟩
    have hkey : fieldHead l = key := by simp [fieldHead, hs]
    have hin : containsKey (List.map versionsEntry pre) key = true := by
      rw [containsKey_eq_true]
      rw [hkey] at hdup
      simp only [List.map_map]
      have : Prod.fst ∘ versionsEntry = fieldHead := by
        funext x; simp [versionsEntry, fieldHead]
      rw [this]
      exact hdup
    simp only [List.nil_append]
    rw [parseLines, hs]
    show (if containsKey (List.map versionsEntry pre) key = true
        then Except.error (VersionsError.duplicateEntry key)
        else parseLines (List.map versionsEntry pre ++ [(key, List.map Version.parse (v1 :: vs))])
          rest) =
      Except.error (VersionsError.duplicateEntry (fieldHead l))
    rw [if_pos hin, hkey]
  · intro pre l rest hsplit hlen hnd h1
    unfold Versions.parse
    rw [hsplit, parseLines_append pre [] (l :: rest) hlen (by simp) hnd]
    match hs : splitChar ' ' l with
    | [] => rw [parseLines, hs]
    | [a] => rw [parseLines, hs]
    | a :: b :: t => rw [hs] at h1; simp at h1

/-- C8, witness: the three behaviors at the source's own test inputs — the
spec's mixed version file parses to the expected mapping, a one-token line is
an invalid entry, and a repeated plugin name is a duplicate entry. -/
theorem versions_parse_spec_witness :
    Versions.parse "# hi\nnodejs 18.17.1\nruby ref:abc system\ngo path:/opt/go".data =
      .ok [("nodejs".data, [.version "18.17.1".data]),
        ("ruby".data, [.ref "abc".data, .system]),
        ("go".data, [.path "/opt/go".data])] ∧
    Versions.parse "foo1.2.3 # no space".data = .error (.invalidEntry "foo1.2.3".data) ∧
    Versions.parse "foo 1.2.3\nfoo 2.1".data = .error (.duplicateEntry "foo".data) := by
  refine ⟨?_, ?_, ?_⟩
  · rw [(versions_parse_spec _).1 (by decide) (by decide)]
    decide
  · rw [(versions_parse_spec _).2.2 [] "foo1.2.3".data [] (by decide) (by decide) (by decide)
      (by decide)]
  · rw [(versions_parse_spec _).2.1 ["foo 1.2.3".data] "foo 2.1".data [] (by decide) (by decide)
      (by decide) (by decide) (by decide)]
    decide

/-- C8, counterexample to the claim as stated: the line `foo<TAB>1` has two
whitespace-separated tokens, so by the claim it should parse to a mapping,
yet the code splits on single spaces only and rejects it as an invalid
entry. -/
theorem versions_parse_cex :
    Versions.parse "foo\t1".data = .error (.invalidEntry "foo\t1".data) ∧
    (whitespaceTokens "foo\t1".data).length = 2 := by
  constructor
  · decide
  · decide

/-! ## The environment model (`src/lib/src/env.rs`, `struct Env`)

`path: BTreeSet<String>` and `vars: BTreeMap<String, String>` are modelled as
lists carrying the containers' iteration order; insertion keeps the set/map
semantics (no duplicate entries, value overwrite per key). -/

structure Env where
  path : List Str
  vars : List (Str × Str)
deriving DecidableEq, Repr

def Env.default : Env := ⟨[], []⟩

/-- `BTreeMap::insert`: overwrite the value if the key is present, otherwise
add the entry. -/
def insertVar : List (Str × Str) → Str → Str → List (Str × Str)
  | [], k, v => [(k, v)]
  | (k', v') :: rest, k, v =>
    if k' = k then (k, v) :: rest else (k', v') :: insertVar rest k v

/-- `HashSet::insert` / `BTreeSet::insert`: add the element if absent. -/
def insertSet (l : List Str) (e : Str) : List Str :=
  if e ∈ l then l else l ++ [e]

/-- `Env::merge`: union of path entries, value-wise overwrite for vars. -/
def Env.merge (self other : Env) : Env :=
  ⟨other.path.foldl insertSet self.path,
    other.vars.foldl (fun m kv => insertVar m kv.1 kv.2) self.vars⟩

/-! ## The shell state engine (`src/src/lib/shell/mod.rs`)

`ShellState` holds the pending mutation sets (`HashSet`/`HashMap`, modelled
as lists in iteration order); `apply_bashlike` renders them into the command
script, reading the current process environment (modelled as
`penv : Str → Option Str`, for `std::env::var`). -/

structure ShellState where
  add_path : List Str
  remove_path : List Str
  set_var : List (Str × Str)
  unset_var : List Str
deriving DecidableEq, Repr

def ShellState.new : ShellState := ⟨[], [], [], []⟩

/-- `ShellState::set`: evict from `unset_var`, insert into `set_var`. -/
def ShellState.set (s : ShellState) (key value : Str) : ShellState :=
  { s with unset_var := s.unset_var.filter (fun k => k ≠ key),
           set_var := insertVar s.set_var key value }

/-- `ShellState::unset`: evict from `set_var`, insert into `unset_var`. -/
def ShellState.unset (s : ShellState) (key : Str) : ShellState :=
  { s with set_var := s.set_var.filter (fun kv => kv.1 ≠ key),
           unset_var := insertSet s.unset_var key }

/-- `ShellState::add_path`: evict from `remove_path`, insert into `add_path`. -/
def ShellState.addPath (s : ShellState) (entry : Str) : ShellState :=
  { s with remove_path := s.remove_path.filter (fun e => e ≠ entry),
           add_path := insertSet s.add_path entry }

/-- `ShellState::remove_path`: evict from `add_path`, insert into
`remove_path`. -/
def ShellState.removePath (s : ShellState) (entry : Str) : ShellState :=
  { s with add_path := s.add_path.filter (fun e => e ≠ entry),
           remove_path := insertSet s.remove_path entry }

/-- `ShellState::apply`: queue `set` for every var and `add_path` for every
path entry of an environment model. -/
def ShellState.applyEnv (s : ShellState) (env : Env) : ShellState :=
  env.path.foldl (fun st e => st.addPath e)
    (env.vars.foldl (fun st kv => st.set kv.1 kv.2) s)

/-- `ShellState::revert`: queue `unset` for every var key and `remove_path`
for every path entry of an environment model. -/
def ShellState.revertEnv (s : ShellState) (env : Env) : ShellState :=
  env.path.foldl (fun st e => st.removePath e)
    (env.vars.foldl (fun st kv => st.unset kv.1) s)

/-- Rust `Vec::join(sep)` for one-character separators. -/
def joinChar (sep : Char) : List Str → Str
  | [] => []
  | [g] => g
  | g :: g2 :: gs => g ++ sep :: joinChar sep (g2 :: gs)

/-- `apply_bashlike` from `src/src/lib/shell/mod.rs`: the current `PATH` is
split on `:`, entries in `add_path` or `remove_path` are filtered out, the
`add_path` entries are put in front; unsets are emitted only for variables
set in the process environment; output is unsets, exports, then the `PATH`
export. -/
def applyBashlike (penv : Str → Option Str) (state : ShellState) : Str :=
  let path := (penv "PATH".data).getD []
  let prev_path := (splitChar ':' path).filter
    (fun entry => !(state.remove_path.contains entry) && !(state.add_path.contains entry))
  let new_path := state.add_path ++ prev_path
  let path_str := "export PATH=".data ++ joinChar ':' new_path ++ ";".data
  let unset_str := ((state.unset_var.filter (fun key => (penv key).isSome)).map
    (fun key => "unset ".data ++ key ++ ";".data)).flatten
  let set_str := (state.set_var.map
    (fun kv => "export ".data ++ kv.1 ++ "=".data ++ kv.2 ++ ";".data)).flatten
  unset_str ++ set_str ++ path_str

/-- The rendering as §4.4 of the spec words it: the unset block (only
variables currently set in the process environment), then the export block,
then a single `export PATH=…;` whose value is the `add_path` entries in order
followed by the current `PATH` entries minus both `add_path` and
`remove_path`. -/
def renderSpec (penv : Str → Option Str) (state : ShellState) : Str :=
  ((state.unset_var.filter (fun key => (penv key).isSome)).map
      (fun key => "unset ".data ++ key ++ ";".data)).flatten ++
  (state.set_var.map
      (fun kv => "export ".data ++ kv.1 ++ "=".data ++ kv.2 ++ ";".data)).flatten ++
  ("export PATH=".data ++
    joinChar ':' (state.add_path ++
      (splitChar ':' ((penv "PATH".data).getD [])).filter
        (fun entry => entry ∉ state.add_path ∧ entry ∉ state.remove_path)) ++
    ";".data)

/-- C5: the rendered command script has exactly the shape the spec gives:
unsets (only for variables currently set in the process environment), then
exports, then one `export PATH=…;` whose value front-loads the `add_path`
entries and keeps the current `PATH` entries minus both `add_path` and
`remove_path`. -/
theorem applyBashlike_eq_renderSpec (penv : Str → Option Str) (state : ShellState) :
    applyBashlike penv state = renderSpec penv state := by
  unfold applyBashlike renderSpec
  simp only [List.append_assoc]
  congr 2
  have hf : (fun (entry : Str) =>
        !state.remove_path.contains entry && !state.add_path.contains entry) =
      (fun entry => decide (entry ∉ state.add_path ∧ entry ∉ state.remove_path)) := by
    funext e
    simp only [List.contains, List.elem_eq_mem]
    rw [Bool.and_comm]
    simp
  rw [hf]

/-- The states reachable from the empty `ShellState` by the four mutators
(`apply`/`revert` are folds of these, see
`Qwer.ShellState.applyEnv`/`Qwer.ShellState.revertEnv`). -/
inductive ShellState.Reachable : ShellState → Prop
  | new : ShellState.Reachable ShellState.new
  | set (s : ShellState) (k v : Str) : ShellState.Reachable s → ShellState.Reachable (s.set k v)
  | unset (s : ShellState) (k : Str) : ShellState.Reachable s → ShellState.Reachable (s.unset k)
  | addPath (s : ShellState) (e : Str) :
      ShellState.Reachable s → ShellState.Reachable (s.addPath e)
  | removePath (s : ShellState) (e : Str) :
      ShellState.Reachable s → ShellState.Reachable (s.removePath e)

/-- The pending-action sets of a shell state are pairwise disjoint:
no key is both pending-set and pending-unset, no entry both pending-added and
pending-removed. -/
def ShellState.Disjoint (s : ShellState) : Prop :=
  (∀ k, k ∈ s.set_var.map Prod.fst → k ∉ s.unset_var) ∧
  (∀ e, e ∈ s.add_path → e ∉ s.remove_path)

theorem mem_insertVar_fst {m : List (Str × Str)} {key value k : Str}
    (h : k ∈ (insertVar m key value).map Prod.fst) :
    k ∈ m.map Prod.fst ∨ k = key := by
  induction m with
  | nil => simp [insertVar] at h; simp [h]
  | cons kv rest ih =>
    rw [insertVar] at h
    by_cases hk : kv.1 = key
    · rw [if_pos hk] at h
      simp at h
      rcases h with h | h
      · right; exact h
      · left; simp [h]
    · rw [if_neg hk] at h
      simp at h
      rcases h with h | h
      · left; simp [h]
      · rcases ih (by simpa using h) with h' | h'
        · left; simp; right; simpa using h'
        · right; exact h'

theorem mem_insertSet {l : List Str} {e k : Str} (h : k ∈ insertSet l e) :
    k ∈ l ∨ k = e := by
  unfold insertSet at h
  by_cases he : e ∈ l
  · rw [if_pos he] at h; left; exact h
  · rw [if_neg he] at h
    simp at h
    exact h

theorem mem_filter_ne {l : List Str} {k key : Str}
    (h : k ∈ l.filter (fun x => x ≠ key)) : k ∈ l ∧ k ≠ key := by
  have := List.mem_filter.mp h
  refine ⟨this.1, by simpa using this.2⟩

theorem shellState_reachable_disjoint (s : ShellState) (h : s.Reachable) : s.Disjoint := by
  induction h with
  | new => exact ⟨by simp [ShellState.new], by simp [ShellState.new]⟩
  | set s k v _ ih =>
    obtain ⟨ihv, ihp⟩ := ih
    refine ⟨?_, ihp⟩
    intro k' hk' hmem
    rcases mem_insertVar_fst hk' with h' | h'
    · exact ihv k' h' (mem_filter_ne hmem).1
    · exact (mem_filter_ne hmem).2 h'
  | unset s k _ ih =>
    obtain ⟨ihv, ihp⟩ := ih
    refine ⟨?_, ihp⟩
    intro k' hk' hmem
    have hk'' := List.mem_filter.mp (List.mem_map.mp hk' |>.choose_spec.1)
    obtain ⟨kv, hkv, hfst⟩ := List.mem_map.mp hk'
    have := List.mem_filter.mp hkv
    rcases mem_insertSet hmem with h' | h'
    · exact ihv k' (hfst ▸ List.mem_map_of_mem Prod.fst this.1) h'
    · have : kv.1 ≠ k := by simpa using this.2
      exact this (hfst.symm ▸ h')
  | addPath s e _ ih =>
    obtain ⟨ihv, ihp⟩ := ih
    refine ⟨ihv, ?_⟩
    intro e' he' hmem
    rcases mem_insertSet he' with h' | h'
    · exact ihp e' h' (mem_filter_ne hmem).1
    · exact (mem_filter_ne hmem).2 h'
  | removePath s e _ ih =>
    obtain ⟨ihv, ihp⟩ := ih
    refine ⟨ihv, ?_⟩
    intro e' he' hmem
    have hane := mem_filter_ne he'
    rcases mem_insertSet hmem with h' | h'
    · exact ihp e' hane.1 h'
    · exact hane.2 h'

theorem self_mem_insertSet (l : List Str) (e : Str) : e ∈ insertSet l e := by
  unfold insertSet
  by_cases he : e ∈ l
  · rw [if_pos he]; exact he
  · rw [if_neg he]; simp

theorem reachable_foldl {α : Type} (f : ShellState → α → ShellState)
    (hf : ∀ st a, st.Reachable → (f st a).Reachable) :
    ∀ (l : List α) (st : ShellState), st.Reachable → (List.foldl f st l).Reachable := by
  intro l
  induction l with
  | nil => intro st h; exact h
  | cons a rest ih => intro st h; exact ih (f st a) (hf st a h)

/-- `apply` only issues `set`/`add_path` calls, so it stays within the
reachable states. -/
theorem reachable_applyEnv (s : ShellState) (env : Env) (h : s.Reachable) :
    (s.applyEnv env).Reachable := by
  unfold ShellState.applyEnv
  exact reachable_foldl _ (fun st e hst => ShellState.Reachable.addPath st e hst) _ _
    (reachable_foldl _ (fun st kv hst => ShellState.Reachable.set st kv.1 kv.2 hst) _ _ h)

/-- `revert` only issues `unset`/`remove_path` calls, so it stays within the
reachable states. -/
theorem reachable_revertEnv (s : ShellState) (env : Env) (h : s.Reachable) :
    (s.revertEnv env).Reachable := by
  unfold ShellState.revertEnv
  exact reachable_foldl _ (fun st e hst => ShellState.Reachable.removePath st e hst) _ _
    (reachable_foldl _ (fun st kv hst => ShellState.Reachable.unset st kv.1 hst) _ _ h)

/-- C4: every state reachable from the empty state by the four mutators (and
hence by `apply`/`revert`, which are folds of them — see
`Qwer.reachable_applyEnv`, `Qwer.reachable_revertEnv`) has `set_var` disjoint
from `unset_var` on keys and `add_path` disjoint from `remove_path`; and for
any state at all, after `set k v` then `unset k` the key is pending-unset and
not pending-set, symmetrically for path entries. -/
theorem shellState_disjoint_invariant :
    (∀ s : ShellState, s.Reachable →
      (∀ k, k ∈ s.set_var.map Prod.fst → k ∉ s.unset_var) ∧
      (∀ e, e ∈ s.add_path → e ∉ s.remove_path)) ∧
    (∀ (s : ShellState) (k v : Str),
      k ∈ ((s.set k v).unset k).unset_var ∧
      k ∉ ((s.set k v).unset k).set_var.map Prod.fst) ∧
    (∀ (s : ShellState) (e : Str),
      e ∈ ((s.addPath e).removePath e).remove_path ∧
      e ∉ ((s.addPath e).removePath e).add_path) := by
  refine ⟨shellState_reachable_disjoint, ?_, ?_⟩
  · intro s k v
    constructor
    · exact self_mem_insertSet _ _
    · intro hmem
      obtain ⟨kv, hkv, hfst⟩ := List.mem_map.mp hmem
      have h2 := List.mem_filter.mp hkv
      have hne : kv.1 ≠ k := by simpa using h2.2
      exact hne hfst
  · intro s e
    constructor
    · exact self_mem_insertSet _ _
    · intro hmem
      have h2 := List.mem_filter.mp hmem
      have hne : e ≠ e := by simpa using h2.2
      exact hne rfl

/-- C4, witness: the invariant applied to the concrete reachable state
`new.set "A" "1" |>.unset "B"`, and the set-then-unset facts at concrete
keys and path entries. -/
theorem shellState_disjoint_invariant_witness :
    ((∀ k, k ∈ ((ShellState.new.set "A".data "1".data).unset "B".data).set_var.map Prod.fst →
        k ∉ ((ShellState.new.set "A".data "1".data).unset "B".data).unset_var) ∧
      (∀ e, e ∈ ((ShellState.new.set "A".data "1".data).unset "B".data).add_path →
        e ∉ ((ShellState.new.set "A".data "1".data).unset "B".data).remove_path)) ∧
    ("A".data ∈ ((ShellState.new.set "A".data "1".data).unset "A".data).unset_var ∧
      "A".data ∉ ((ShellState.new.set "A".data "1".data).unset "A".data).set_var.map Prod.fst) ∧
    ("/x".data ∈ ((ShellState.new.addPath "/x".data).removePath "/x".data).remove_path ∧
      "/x".data ∉ ((ShellState.new.addPath "/x".data).removePath "/x".data).add_path) :=
  ⟨shellState_disjoint_invariant.1 _
      (ShellState.Reachable.unset _ _ (ShellState.Reachable.set _ _ _ ShellState.Reachable.new)),
    shellState_disjoint_invariant.2.1 ShellState.new "A".data "1".data,
    shellState_disjoint_invariant.2.2 ShellState.new "/x".data⟩


/-! ## Base64 (the `base64` crate, standard alphabet with padding) -/

def b64Table : List Char :=
  "ABCDEFGHIJKLMNOPQRSTUVWXYZabcdefghijklmnopqrstuvwxyz0123456789+/".data

def encChar (n : Nat) : Char := b64Table.getD n 'A'

def decChar (c : Char) : Option Nat := b64Table.findIdx? (fun x => x == c)

example : decChar (encChar 37) = some 37 := by decide

theorem decChar_encChar {n : Nat} (h : n < 64) : decChar (encChar n) = some n := by
  interval_cases n <;> decide

theorem encChar_lt128 {n : Nat} (h : n < 64) : (encChar n).toNat < 128 := by
  interval_cases n <;> decide

theorem encChar_ne_pad {n : Nat} (h : n < 64) : encChar n ≠ '=' := by
  interval_cases n <;> decide

theorem encChar_ne_dot {n : Nat} (h : n < 64) : encChar n ≠ '.' := by
  interval_cases n <;> decide

def b64encode : List Nat → List Char
  | [] => []
  | [b1] => [encChar (b1 / 4), encChar (b1 % 4 * 16), '=', '=']
  | [b1, b2] => [encChar (b1 / 4), encChar (b1 % 4 * 16 + b2 / 16), encChar (b2 % 16 * 4), '=']
  | b1 :: b2 :: b3 :: rest =>
    encChar (b1 / 4) :: encChar (b1 % 4 * 16 + b2 / 16) ::
      encChar (b2 % 16 * 4 + b3 / 64) :: encChar (b3 % 64) :: b64encode rest

def b64decode : List Char → Option (List Nat)
  | [] => some []
  | c1 :: c2 :: c3 :: c4 :: rest =>
    if rest = [] ∧ c3 = '=' ∧ c4 = '=' then
      (decChar c1).bind fun d1 => (decChar c2).bind fun d2 =>
        if d2 % 16 = 0 then some [d1 * 4 + d2 / 16] else none
    else if rest = [] ∧ c4 = '=' then
      (decChar c1).bind fun d1 => (decChar c2).bind fun d2 => (decChar c3).bind fun d3 =>
        if d3 % 4 = 0 then some [d1 * 4 + d2 / 16, d2 % 16 * 16 + d3 / 4] else none
    else
      (decChar c1).bind fun d1 => (decChar c2).bind fun d2 => (decChar c3).bind fun d3 =>
        (decChar c4).bind fun d4 =>
          (b64decode rest).map
            (fun bs => (d1 * 4 + d2 / 16) :: (d2 % 16 * 16 + d3 / 4) :: (d3 % 4 * 64 + d4) :: bs)
  | _ => none

example : b64decode (b64encode [77, 97, 110]) = some [77, 97, 110] := by decide
example : b64decode (b64encode [77, 97]) = some [77, 97] := by decide
example : b64decode (b64encode [77]) = some [77] := by decide
example : b64decode (b64encode [1,2,3,4,5]) = some [1,2,3,4,5] := by decide

theorem b64encode_roundtrip : ∀ bs : List Nat, (∀ b ∈ bs, b < 256) →
    b64decode (b64encode bs) = some bs := by
  intro bs
  induction bs using b64encode.induct with
  | case1 => intro _; rfl
  | case2 b1 =>
    intro hb
    have h1 : b1 < 256 := hb b1 (by simp)
    rw [b64encode, b64decode, if_pos ⟨rfl, rfl, rfl⟩,
      decChar_encChar (show b1 / 4 < 64 by omega),
      decChar_encChar (show b1 % 4 * 16 < 64 by omega)]
    simp only [Option.some_bind]
    rw [if_pos (show b1 % 4 * 16 % 16 = 0 by omega)]
    congr 2
    omega
  | case3 b1 b2 =>
    intro hb
    have h1 : b1 < 256 := hb b1 (by simp)
    have h2 : b2 < 256 := hb b2 (by simp)
    rw [b64encode, b64decode, if_neg, if_pos ⟨rfl, rfl⟩]
    · rw [decChar_encChar (show b1 / 4 < 64 by omega),
        decChar_encChar (show b1 % 4 * 16 + b2 / 16 < 64 by omega),
        decChar_encChar (show b2 % 16 * 4 < 64 by omega)]
      simp only [Option.some_bind]
      rw [if_pos (show b2 % 16 * 4 % 4 = 0 by omega)]
      congr 2
      · omega
      · congr 1
        omega
    · rintro ⟨-, h3, -⟩
      exact encChar_ne_pad (show b2 % 16 * 4 < 64 by omega) h3
  | case4 b1 b2 b3 rest ih =>
    intro hb
    have h1 : b1 < 256 := hb b1 (by simp)
    have h2 : b2 < 256 := hb b2 (by simp)
    have h3 : b3 < 256 := hb b3 (by simp)
    rw [b64encode, b64decode, if_neg, if_neg]
    · rw [decChar_encChar (show b1 / 4 < 64 by omega),
        decChar_encChar (show b1 % 4 * 16 + b2 / 16 < 64 by omega),
        decChar_encChar (show b2 % 16 * 4 + b3 / 64 < 64 by omega),
        decChar_encChar (show b3 % 64 < 64 by omega)]
      simp only [Option.some_bind]
      rw [ih (fun b hbz => hb b (by simp [hbz]))]
      simp only [Option.map_some']
      congr 2
      · omega
      · congr 1
        · omega
        · congr 1
          omega
    · rintro ⟨-, h4⟩
      exact encChar_ne_pad (show b3 % 64 < 64 by omega) h4
    · rintro ⟨-, hc, -⟩
      exact encChar_ne_pad (show b2 % 16 * 4 + b3 / 64 < 64 by omega) hc

theorem b64encode_chars : ∀ bs : List Nat, (∀ b ∈ bs, b < 256) →
    ∀ c ∈ b64encode bs, c.toNat < 128 ∧ c ≠ '.' := by
  intro bs
  induction bs using b64encode.induct with
  | case1 => intro _ c hc; simp [b64encode] at hc
  | case2 b1 =>
    intro hb c hc
    have h1 : b1 < 256 := hb b1 (by simp)
    rw [b64encode] at hc
    simp only [List.mem_cons, List.not_mem_nil, or_false] at hc
    rcases hc with rfl | rfl | rfl | rfl
    · exact ⟨encChar_lt128 (by omega), encChar_ne_dot (by omega)⟩
    · exact ⟨encChar_lt128 (by omega), encChar_ne_dot (by omega)⟩
    · exact ⟨by decide, by decide⟩
    · exact ⟨by decide, by decide⟩
  | case3 b1 b2 =>
    intro hb c hc
    have h1 : b1 < 256 := hb b1 (by simp)
    have h2 : b2 < 256 := hb b2 (by simp)
    rw [b64encode] at hc
    simp only [List.mem_cons, List.not_mem_nil, or_false] at hc
    rcases hc with rfl | rfl | rfl | rfl
    · exact ⟨encChar_lt128 (by omega), encChar_ne_dot (by omega)⟩
    · exact ⟨encChar_lt128 (by omega), encChar_ne_dot (by omega)⟩
    · exact ⟨encChar_lt128 (by omega), encChar_ne_dot (by omega)⟩
    · exact ⟨by decide, by decide⟩
  | case4 b1 b2 b3 rest ih =>
    intro hb c hc
    have h1 : b1 < 256 := hb b1 (by simp)
    have h2 : b2 < 256 := hb b2 (by simp)
    have h3 : b3 < 256 := hb b3 (by simp)
    rw [b64encode] at hc
    simp only [List.mem_cons] at hc
    rcases hc with rfl | rfl | rfl | rfl | hc
    · exact ⟨encChar_lt128 (by omega), encChar_ne_dot (by omega)⟩
    · exact ⟨encChar_lt128 (by omega), encChar_ne_dot (by omega)⟩
    · exact ⟨encChar_lt128 (by omega), encChar_ne_dot (by omega)⟩
    · exact ⟨encChar_lt128 (by omega), encChar_ne_dot (by omega)⟩
    · exact ih (fun b hbz => hb b (by simp [hbz])) c hc

/-- UTF-8 encoding of one scalar value. -/
def utf8EncodeChar (c : Char) : List Nat :=
  if c.toNat < 128 then [c.toNat]
  else if c.toNat < 2048 then [192 + c.toNat / 64, 128 + c.toNat % 64]
  else if c.toNat < 65536 then
    [224 + c.toNat / 4096, 128 + c.toNat / 64 % 64, 128 + c.toNat % 64]
  else
    [240 + c.toNat / 262144, 128 + c.toNat / 4096 % 64, 128 + c.toNat / 64 % 64, 128 + c.toNat % 64]

def utf8Encode (s : Str) : List Nat := (s.map utf8EncodeChar).flatten

theorem char_toNat_lt (c : Char) : c.toNat < 1114112 := by
  rcases c.valid with h | ⟨h1, h2⟩
  · have : c.toNat < 55296 := h
    omega
  · exact h2

theorem utf8EncodeChar_lt256 (c : Char) : ∀ b ∈ utf8EncodeChar c, b < 256 := by
  intro b hb
  have hc := char_toNat_lt c
  unfold utf8EncodeChar at hb
  split at hb
  · simp at hb; omega
  · split at hb
    · simp at hb; rcases hb with rfl | rfl <;> omega
    · split at hb
      · simp at hb; rcases hb with rfl | rfl | rfl <;> omega
      · simp at hb; rcases hb with rfl | rfl | rfl | rfl <;> omega

theorem utf8Encode_lt256 (s : Str) : ∀ b ∈ utf8Encode s, b < 256 := by
  intro b hb
  unfold utf8Encode at hb
  obtain ⟨l, hl, hbl⟩ := List.mem_flatten.mp hb
  obtain ⟨c, _, rfl⟩ := List.mem_map.mp hl
  exact utf8EncodeChar_lt256 c b hbl

theorem utf8Encode_ascii (s : Str) (h : ∀ c ∈ s, c.toNat < 128) :
    utf8Encode s = s.map Char.toNat := by
  induction s with
  | nil => rfl
  | cons c rest ih =>
    have hc : c.toNat < 128 := h c (by simp)
    unfold utf8Encode
    simp only [List.map_cons, List.flatten_cons]
    rw [show utf8EncodeChar c = [c.toNat] from by unfold utf8EncodeChar; rw [if_pos hc]]
    rw [show (List.map utf8EncodeChar rest).flatten = utf8Encode rest from rfl,
      ih (fun c' hc' => h c' (by simp [hc']))]
    rfl

/-- Snappy frame stream identifier chunk (type `0xff`, length 6, `sNaPpY`). -/
def snapStreamIdent : List Nat := [255, 6, 0, 0, 115, 78, 97, 80, 112, 89]

def len3 (n : Nat) : List Nat := [n % 256, n / 256 % 256, n / 65536 % 256]

/-- The snappy frame encoder, modelled with a single uncompressed chunk
(type `0x01`; payload = 4-byte checksum, modelled as zero, then the data).
The LZ77 compression of chunk payloads is immaterial to every property proved
here, which depend only on frame streams starting with the stream identifier
and on the decoder rejecting anything else. -/
def snapCompress (bs : List Nat) : List Nat :=
  snapStreamIdent ++ 1 :: len3 (bs.length + 4) ++ [0, 0, 0, 0] ++ bs

/-- The chunk loop of the snappy frame decoder: uncompressed chunks yield
their payload after the checksum, skippable chunks (types `0x80`-`0xff`) are
skipped, reserved unskippable chunks (types `0x02`-`0x7f`) and compressed
chunks (not produced by the modelled encoder) are rejected. -/
def snapChunks : Nat → List Nat → Option (List Nat)
  | _, [] => some []
  | 0, _ :: _ => none
  | fuel+1, t :: rest =>
    if rest.length < 3 then none
    else
      let n := rest.headD 0 + 256 * (rest.drop 1).headD 0 + 65536 * (rest.drop 2).headD 0
      let body := rest.drop 3
      if body.length < n then none
      else if t = 1 then
        if n < 4 then none
        else (snapChunks fuel (body.drop n)).map (fun out => (body.take n).drop 4 ++ out)
      else if 128 ≤ t then snapChunks fuel (body.drop n)
      else none

/-- The snappy frame decoder: requires the stream identifier first, then
parses chunks. -/
def snapDecompress (bs : List Nat) : Option (List Nat) :=
  if snapStreamIdent.isPrefixOf bs then snapChunks bs.length (bs.drop 10) else none

theorem snapDecompress_of_lt128 (bs : List Nat) (h : ∀ b ∈ bs, b < 128) :
    snapDecompress bs = none := by
  unfold snapDecompress
  rw [if_neg]
  intro hpre
  match bs, hpre with
  | b :: rest, hpre =>
    rw [show snapStreamIdent = 255 :: [6, 0, 0, 115, 78, 97, 80, 112, 89] from rfl] at hpre
    rw [List.isPrefixOf] at hpre
    have hb := h b (by simp)
    have : (255 == b) = true := (Bool.and_eq_true _ _ |>.mp hpre).1
    have : 255 = b := by simpa using this
    omega

example : snapDecompress (snapCompress [10, 20, 30]) = some [10, 20, 30] := by decide


theorem splitChar_ne_nil (sep : Char) (l : Str) : splitChar sep l ≠ [] := by
  induction l with
  | nil => simp [splitChar]
  | cons c rest ih =>
    rcases hs : splitChar sep rest with - | ⟨g, gs⟩
    · exact absurd hs ih
    · by_cases hc : c = sep <;> simp [splitChar, hs, hc]

theorem splitChar_not_mem (sep : Char) (l : Str) (h : sep ∉ l) : splitChar sep l = [l] := by
  induction l with
  | nil => rfl
  | cons c rest ih =>
    have hc : ¬ (c = sep) := fun hcc => h (by simp [hcc])
    have ihh := ih (fun hm => h (by simp [hm]))
    simp [splitChar, ihh, hc]

theorem splitChar_append_sep (sep : Char) (a b : Str) (ha : sep ∉ a) :
    splitChar sep (a ++ sep :: b) = a :: splitChar sep b := by
  induction a with
  | nil =>
    simp only [List.nil_append]
    rcases hs : splitChar sep b with - | ⟨g, gs⟩
    · exact absurd hs (splitChar_ne_nil sep b)
    · simp [splitChar, hs]
  | cons c rest ih =>
    have hc : ¬ (c = sep) := fun hcc => ha (by simp [hcc])
    have ihh := ih (fun hm => ha (by simp [hm]))
    simp only [List.cons_append]
    simp [splitChar, ihh, hc]

/-! ## Serialization of the environment model (`src/lib/src/env.rs`)

`Env::serialize` writes the vars and path blobs through a snappy
`FrameEncoder` wrapped in a base64 `EncoderStringWriter`, and then base64
encodes each resulting *string* a second time before joining with `.`;
`Env::deserialize` splits on `.` and decodes each part once with a base64
`DecoderReader` feeding a snappy `FrameDecoder`.  Errors raised while reading
the streams surface as `EnvError::Io`. -/

def splitOnce (sep : Char) : Str → Option (Str × Str)
  | [] => none
  | c :: rest =>
    if c = sep then some ([], rest)
    else (splitOnce sep rest).map (fun p => (c :: p.1, p.2))

def utf8DecodeLoop : Nat → List Nat → Option Str
  | _, [] => some []
  | 0, _ :: _ => none
  | fuel+1, b :: rest =>
    if b < 128 then (utf8DecodeLoop fuel rest).map (fun s => Char.ofNat b :: s)
    else if 192 ≤ b ∧ b < 224 then
      match rest with
      | b2 :: rest2 =>
        if 128 ≤ b2 ∧ b2 < 192 ∧ 128 ≤ (b - 192) * 64 + (b2 - 128) then
          (utf8DecodeLoop fuel rest2).map (fun s => Char.ofNat ((b - 192) * 64 + (b2 - 128)) :: s)
        else none
      | [] => none
    else if 224 ≤ b ∧ b < 240 then
      match rest with
      | b2 :: b3 :: rest3 =>
        if 128 ≤ b2 ∧ b2 < 192 ∧ 128 ≤ b3 ∧ b3 < 192 ∧
            2048 ≤ (b - 224) * 4096 + (b2 - 128) * 64 + (b3 - 128) ∧
            ¬ (55296 ≤ (b - 224) * 4096 + (b2 - 128) * 64 + (b3 - 128) ∧
              (b - 224) * 4096 + (b2 - 128) * 64 + (b3 - 128) < 57344) then
          (utf8DecodeLoop fuel rest3).map
            (fun s => Char.ofNat ((b - 224) * 4096 + (b2 - 128) * 64 + (b3 - 128)) :: s)
        else none
      | _ => none
    else if 240 ≤ b ∧ b < 248 then
      match rest with
      | b2 :: b3 :: b4 :: rest4 =>
        if 128 ≤ b2 ∧ b2 < 192 ∧ 128 ≤ b3 ∧ b3 < 192 ∧ 128 ≤ b4 ∧ b4 < 192 ∧
            65536 ≤ (b - 240) * 262144 + (b2 - 128) * 4096 + (b3 - 128) * 64 + (b4 - 128) ∧
            (b - 240) * 262144 + (b2 - 128) * 4096 + (b3 - 128) * 64 + (b4 - 128) < 1114112 then
          (utf8DecodeLoop fuel rest4).map
            (fun s =>
              Char.ofNat
                ((b - 240) * 262144 + (b2 - 128) * 4096 + (b3 - 128) * 64 + (b4 - 128)) :: s)
        else none
      | _ => none
    else none

def utf8Decode (bs : List Nat) : Option Str := utf8DecodeLoop bs.length bs

example : utf8Decode (utf8Encode "aé€z".data) = some "aé€z".data := by decide

inductive EnvError where
  | invalidEnvString
  | invalidString
  | decodeFailed
  | io
deriving DecidableEq, Repr

def varsStr (env : Env) : Str :=
  joinChar '\n' (env.vars.map (fun kv => kv.1 ++ '=' :: b64encode (utf8Encode kv.2)))

def pathStr (env : Env) : Str := joinChar '\n' env.path

def Env.serialize (env : Env) : Str :=
  b64encode (utf8Encode (b64encode (snapCompress (utf8Encode (varsStr env))))) ++
    '.' :: b64encode (utf8Encode (b64encode (snapCompress (utf8Encode (pathStr env)))))

def decodeBlob (part : Str) : Except EnvError Str :=
  (b64decode part).elim (.error .io) (fun bytes =>
    (snapDecompress bytes).elim (.error .io) (fun data =>
      (utf8Decode data).elim (.error .io) (fun s => .ok s)))

def parseVarEntries (acc : List (Str × Str)) : List Str → Except EnvError (List (Str × Str))
  | [] => .ok acc
  | entry :: rest =>
    match splitOnce '=' entry with
    | none => .error .invalidEnvString
    | some (key, val) =>
      match b64decode val with
      | none => .error .decodeFailed
      | some bytes =>
        match utf8Decode bytes with
        | none => .error .invalidString
        | some decoded => parseVarEntries (insertVar acc key decoded) rest

def Env.deserialize (s : Str) : Except EnvError Env :=
  if (splitChar '.' s).length = 2 then
    (decodeBlob ((splitChar '.' s).headD [])).bind (fun vars_str =>
      (parseVarEntries [] (splitChar '\n' vars_str)).bind (fun vars =>
        (decodeBlob ((splitChar '.' s).getD 1 [])).map (fun path_str =>
          Env.mk ((splitChar '\n' path_str).foldl insertSet []) vars)))
  else .error .invalidEnvString

theorem snapCompress_lt256 (bs : List Nat) (h : ∀ b ∈ bs, b < 256) :
    ∀ b ∈ snapCompress bs, b < 256 := by
  intro b hb
  unfold snapCompress at hb
  rcases List.mem_append.mp hb with h1 | h1
  · rcases List.mem_append.mp h1 with h2 | h2
    · rcases List.mem_append.mp h2 with h3 | h3
      · simp [snapStreamIdent] at h3; omega
      · rcases List.mem_cons.mp h3 with rfl | h4
        · omega
        · simp [len3] at h4
          rcases h4 with rfl | rfl | rfl <;> omega
    · simp at h2; omega
  · exact h b h1

theorem decodeBlob_double_encode (t : Str) :
    decodeBlob (b64encode (utf8Encode (b64encode (snapCompress (utf8Encode t))))) =
      .error .io := by
  unfold decodeBlob
  rw [b64encode_roundtrip _ (utf8Encode_lt256 _)]
  rw [Option.elim_some]
  have hchars : ∀ c ∈ b64encode (snapCompress (utf8Encode t)), c.toNat < 128 := by
    intro c hc
    exact (b64encode_chars _ (snapCompress_lt256 _ (utf8Encode_lt256 _)) c hc).1
  rw [utf8Encode_ascii _ hchars, snapDecompress_of_lt128]
  · rfl
  · intro b hb
    obtain ⟨c, hc, rfl⟩ := List.mem_map.mp hb
    exact hchars c hc

/-- C2: the serialize/deserialize round trip never succeeds.  `serialize`
base64-encodes each already-base64 blob a second time, while `deserialize`
base64-decodes only once, so the snappy frame decoder is fed base64 text
(whose first byte is an ASCII alphabet character, not the `0xff` stream
identifier) and fails with an IO error — for every environment model. -/
theorem env_serialize_roundtrip_fails (env : Env) :
    Env.deserialize (Env.serialize env) = .error .io := by
  unfold Env.serialize Env.deserialize
  set A := b64encode (utf8Encode (b64encode (snapCompress (utf8Encode (varsStr env))))) with hA
  set B := b64encode (utf8Encode (b64encode (snapCompress (utf8Encode (pathStr env))))) with hB
  have hdotA : '.' ∉ A := fun hm => (b64encode_chars _ (utf8Encode_lt256 _) _ hm).2 rfl
  have hdotB : '.' ∉ B := fun hm => (b64encode_chars _ (utf8Encode_lt256 _) _ hm).2 rfl
  rw [splitChar_append_sep '.' _ _ hdotA, splitChar_not_mem '.' _ hdotB]
  have hlen : ([A, B] : List Str).length = 2 := rfl
  rw [if_pos hlen]
  have hhead : ([A, B] : List Str).headD [] = A := rfl
  rw [hhead, hA, decodeBlob_double_encode]
  rfl



/-! ## The environment hash (`Env::hash`, `twox_hash::XxHash64` with seed 0)

The XXH64 algorithm over the concatenated UTF-8 bytes of every var key and
value (in map order) followed by every path entry; the streaming `write`
calls of the source hash exactly the concatenation of their arguments. -/

def xxP1 : Nat := 11400714785074694791
def xxP2 : Nat := 14029467366897019727
def xxP3 : Nat := 1609587929392839161
def xxP4 : Nat := 9650029242287828579
def xxP5 : Nat := 2870177450012600261

def m64 (n : Nat) : Nat := n % 18446744073709551616

def rotl64 (x r : Nat) : Nat := m64 (x * 2 ^ r + x / 2 ^ (64 - r))

def xxRound (acc lane : Nat) : Nat := m64 (rotl64 (m64 (acc + m64 (lane * xxP2))) 31 * xxP1)

def xxMergeRound (acc v : Nat) : Nat := m64 ((acc ^^^ xxRound 0 v) * xxP1 + xxP4)

def u64le (bs : List Nat) : Nat := bs.foldr (fun b acc => b + 256 * acc) 0

def xxStripes : Nat → Nat × Nat × Nat × Nat → List Nat → (Nat × Nat × Nat × Nat) × List Nat
  | 0, vs, bs => (vs, bs)
  | fuel+1, (v1, v2, v3, v4), bs =>
    if 32 ≤ bs.length then
      xxStripes fuel
        (xxRound v1 (u64le (bs.take 8)),
          xxRound v2 (u64le ((bs.drop 8).take 8)),
          xxRound v3 (u64le ((bs.drop 16).take 8)),
          xxRound v4 (u64le ((bs.drop 24).take 8)))
        (bs.drop 32)
    else ((v1, v2, v3, v4), bs)

def xxTail : Nat → Nat → List Nat → Nat
  | 0, acc, _ => acc
  | fuel+1, acc, bs =>
    if 8 ≤ bs.length then
      xxTail fuel (m64 (rotl64 (acc ^^^ xxRound 0 (u64le (bs.take 8))) 27 * xxP1 + xxP4))
        (bs.drop 8)
    else if 4 ≤ bs.length then
      xxTail fuel (m64 (rotl64 (acc ^^^ m64 (u64le (bs.take 4) * xxP1)) 23 * xxP2 + xxP3))
        (bs.drop 4)
    else
      match bs with
      | [] => acc
      | b :: rest => xxTail fuel (m64 (rotl64 (acc ^^^ m64 (b * xxP5)) 11 * xxP1)) rest

def xxAvalanche (x : Nat) : Nat :=
  let a := x ^^^ (x >>> 33)
  let b := m64 (a * xxP2)
  let c := b ^^^ (b >>> 29)
  let d := m64 (c * xxP3)
  d ^^^ (d >>> 32)

/-- XXH64 (checked against the reference vectors for the empty string, `a`,
`abc` and a 40-byte input exercising the stripe loop). -/
def xxh64 (seed : Nat) (input : List Nat) : Nat :=
  if 32 ≤ input.length then
    let s := xxStripes input.length
      (m64 (seed + xxP1 + xxP2), m64 (seed + xxP2), seed,
        m64 (seed + (18446744073709551616 - xxP1)))
      input
    let v1 := s.1.1
    let v2 := s.1.2.1
    let v3 := s.1.2.2.1
    let v4 := s.1.2.2.2
    let acc0 := m64 (rotl64 v1 1 + rotl64 v2 7 + rotl64 v3 12 + rotl64 v4 18)
    let acc1 := xxMergeRound (xxMergeRound (xxMergeRound (xxMergeRound acc0 v1) v2) v3) v4
    xxAvalanche (xxTail s.2.length (m64 (acc1 + input.length)) s.2)
  else
    xxAvalanche (xxTail input.length (m64 (seed + xxP5 + input.length)) input)

/-- `Env::hash`. -/
def Env.hash (env : Env) : Nat :=
  xxh64 0 ((env.vars.map (fun kv => utf8Encode kv.1 ++ utf8Encode kv.2)).flatten ++
    (env.path.map utf8Encode).flatten)

/-! ## The export path of the CLI (`src/cli/src/env.rs`)

`update_env` resolves the target environment (`get_target_env`, see below)
and then applies or reverts; the process environment is the explicit
`penv` function. -/

def QWER_STATE : Str := "QWER_STATE".data

def QWER_PREV : Str := "QWER_PREV".data

def QWER_CURRENT : Str := "QWER_CURRENT".data

/-- `format!("{}", n)` for the `u64` hash. -/
def natToStr (n : Nat) : Str := (toString n).data

/-- `revert_current_env`: decode `QWER_CURRENT` (defaulting to the empty
model on a decode failure), queue its revert, then re-apply a decodable
`QWER_PREV`. -/
def revertCurrentEnv (penv : Str → Option Str) (state : ShellState) : ShellState :=
  match penv QWER_CURRENT with
  | none => state
  | some current =>
    let cur := match Env.deserialize current with
      | .ok e => e
      | .error _ => Env.default
    let state' := state.revertEnv cur
    match penv QWER_PREV with
    | none => state'
    | some prev_str =>
      match Env.deserialize prev_str with
      | .ok prev => state'.applyEnv prev
      | .error _ => state'

/-- `apply_target_env`: short-circuit when `QWER_STATE` equals the target
hash; otherwise revert the current environment and queue the new sets,
bookkeeping vars (`QWER_STATE`, `QWER_CURRENT`, `QWER_PREV` with the
overwritten prior values) and path additions.  The source interleaves the
`stored_env` accumulation with the `state.set` loop over the same `vars`
iteration; the two folds below are that loop split into its two independent
effects. -/
def applyTargetEnv (penv : Str → Option Str) (state : ShellState) (targetEnv : Env) :
    ShellState :=
  let target_hash := natToStr (Env.hash targetEnv)
  let changed : Bool := match penv QWER_STATE with
    | some h => h ≠ target_hash
    | none => true
  if changed = false then state
  else
    let st := revertCurrentEnv penv state
    let stored_vars := targetEnv.vars.foldl (fun acc kv =>
      match penv kv.1 with
      | some store_value => if store_value ≠ kv.2 then insertVar acc kv.1 store_value else acc
      | none => acc) []
    let st := targetEnv.vars.foldl (fun st' kv => st'.set kv.1 kv.2) st
    let st := st.set QWER_STATE target_hash
    let st := st.set QWER_CURRENT (Env.serialize targetEnv)
    let st := if stored_vars ≠ [] then st.set QWER_PREV (Env.serialize ⟨[], stored_vars⟩)
      else st.unset QWER_PREV
    targetEnv.path.foldl (fun st' e => st'.addPath e) st

/-- `clear_state_vars`. -/
def clearStateVars (state : ShellState) : ShellState :=
  ((state.unset QWER_STATE).unset QWER_PREV).unset QWER_CURRENT

/-- `update_env`, with the resolver result passed in explicitly. -/
def updateEnv (penv : Str → Option Str) (target : Option Env) : ShellState :=
  match target with
  | some targetEnv => applyTargetEnv penv ShellState.new targetEnv
  | none => clearStateVars (revertCurrentEnv penv ShellState.new)

theorem joinChar_splitChar (sep : Char) (l : Str) : joinChar sep (splitChar sep l) = l := by
  induction l with
  | nil => rfl
  | cons c rest ih =>
    rcases hs : splitChar sep rest with - | ⟨g, gs⟩
    · exact absurd hs (splitChar_ne_nil sep rest)
    · rw [hs] at ih
      by_cases hc : c = sep
      · subst hc
        simp only [splitChar, hs, if_pos rfl]
        show ([] : Str) ++ c :: joinChar c (g :: gs) = c :: rest
        rw [List.nil_append, ih]
      · simp only [splitChar, hs, if_neg hc]
        cases gs with
        | nil => exact congrArg (List.cons c) ih
        | cons g2 gs' =>
          show (c :: g) ++ sep :: joinChar sep (g2 :: gs') = c :: rest
          rw [List.cons_append]
          exact congrArg (List.cons c) ih


/-- C1 (amended): when a model is resolved and `QWER_STATE` equals its hash,
`apply_target_env` returns without queuing anything, so the `ShellState` is
the empty one; the rendered script is then not the empty string but the
single command `export PATH=<current PATH>;`, which leaves the shell
environment unchanged (a no-op). -/
theorem export_state_match_noop (penv : Str → Option Str) (m : Env)
    (h : penv QWER_STATE = some (natToStr (Env.hash m))) :
    updateEnv penv (some m) = ShellState.new ∧
    applyBashlike penv (updateEnv penv (some m)) =
      "export PATH=".data ++ (penv "PATH".data).getD [] ++ ";".data := by
  have h1 : updateEnv penv (some m) = ShellState.new := by
    unfold updateEnv applyTargetEnv
    rw [h]
    simp
  refine ⟨h1, ?_⟩
  rw [h1]
  unfold applyBashlike ShellState.new
  simp [joinChar_splitChar]

def idempotentCexEnv : Env := ⟨["/opt/bin".data], []⟩

def idempotentCexPenv : Str → Option Str := fun k =>
  if k = QWER_STATE then some (natToStr (Env.hash idempotentCexEnv))
  else if k = "PATH".data then some "/usr/bin".data
  else none

/-- C1, witness: the amended statement at a concrete model and process
environment whose `QWER_STATE` carries the matching hash. -/
theorem export_state_match_noop_witness :
    updateEnv idempotentCexPenv (some idempotentCexEnv) = ShellState.new ∧
    applyBashlike idempotentCexPenv (updateEnv idempotentCexPenv (some idempotentCexEnv)) =
      "export PATH=".data ++ ((idempotentCexPenv "PATH".data).getD []) ++ ";".data :=
  export_state_match_noop idempotentCexPenv idempotentCexEnv (by decide)

/-- C1, counterexample to the claim as stated: with `QWER_STATE` equal to the
resolved model's hash and `PATH=/usr/bin`, the emitted script is
`export PATH=/usr/bin;` — a no-op, but not the empty string. -/
theorem export_state_match_cex :
    applyBashlike idempotentCexPenv (updateEnv idempotentCexPenv (some idempotentCexEnv)) =
      "export PATH=/usr/bin;".data ∧
    "export PATH=/usr/bin;".data ≠ ([] : Str) := by
  constructor
  · decide
  · decide


/-! ## The environment resolver (`src/cli/src/env.rs`, `get_target_env`)

The filesystem is the explicit predicate `isInstallDir plugin verStr`
(modelling `installs_dir.join(plugin).join(version.version_str()).is_dir()`),
and the per-plugin environment hook is `getEnvF plugin version` (modelling a
succeeding `scripts.get_env(version)`; script failures are orthogonal to the
selection logic). -/

/-- One iteration of the `get_target_env` loop: find the first candidate
whose install directory exists, merge its environment, or skip the plugin. -/
def resolveStep (isInstallDir : Str → Str → Bool) (getEnvF : Str → Version → Env)
    (acc : Env) (pv : Str × List Version) : Env :=
  match pv.2.find? (fun version => isInstallDir pv.1 version.versionStr) with
  | none => acc
  | some version => Env.merge acc (getEnvF pv.1 version)

/-- `get_target_env`: fold the loop over the combined versions, returning
`none` when the aggregate environment is empty. -/
def getTargetEnv (isInstallDir : Str → Str → Bool) (getEnvF : Str → Version → Env)
    (versions : List (Str × List Version)) : Option Env :=
  let env := versions.foldl (resolveStep isInstallDir getEnvF) Env.default
  if env.vars = [] ∧ env.path = [] then none else some env

theorem find?_first {p : Version → Bool} (opts1 : List Version) (v : Version)
    (opts2 : List Version) (h1 : ∀ u ∈ opts1, ¬ p u = true) (h2 : p v = true) :
    (opts1 ++ v :: opts2).find? p = some v := by
  induction opts1 with
  | nil => simp [List.find?, h2]
  | cons u rest ih =>
    have hu : p u = false := by
      have := h1 u (by simp)
      simpa using this
    simp only [List.cons_append, List.find?]
    rw [hu]
    exact ih (fun u' hu' => h1 u' (by simp [hu']))

/-- C6: the resolver selects the first candidate in preference order whose
install directory exists (first conjunct), and a plugin none of whose
candidates is installed is silently skipped — the resolution over the
remaining plugins is unchanged and no error arises (second conjunct). -/
theorem resolver_selection_and_skip (isInstallDir : Str → Str → Bool)
    (getEnvF : Str → Version → Env) :
    (∀ (acc : Env) (p : Str) (opts1 : List Version) (v : Version) (opts2 : List Version),
      (∀ u ∈ opts1, ¬ isInstallDir p u.versionStr = true) →
      isInstallDir p v.versionStr = true →
      resolveStep isInstallDir getEnvF acc (p, opts1 ++ v :: opts2) =
        Env.merge acc (getEnvF p v)) ∧
    (∀ (pre post : List (Str × List Version)) (p : Str) (opts : List Version),
      (∀ u ∈ opts, ¬ isInstallDir p u.versionStr = true) →
      getTargetEnv isInstallDir getEnvF (pre ++ (p, opts) :: post) =
        getTargetEnv isInstallDir getEnvF (pre ++ post)) := by
  constructor
  · intro acc p opts1 v opts2 h1 h2
    unfold resolveStep
    rw [find?_first opts1 v opts2 h1 h2]
  · intro pre post p opts hnone
    unfold getTargetEnv
    rw [List.foldl_append, List.foldl_append, List.foldl_cons]
    have hstep : resolveStep isInstallDir getEnvF
        (pre.foldl (resolveStep isInstallDir getEnvF) Env.default) (p, opts) =
        pre.foldl (resolveStep isInstallDir getEnvF) Env.default := by
      unfold resolveStep
      rw [List.find?_eq_none.mpr (fun u hu => by simpa using hnone u hu)]
    rw [hstep]

def resolverCexIsDir : Str → Str → Bool := fun p v =>
  p = "python".data ∧ v = "3.11".data

def resolverCexGetEnv : Str → Version → Env := fun p v =>
  ⟨["installs/".data ++ p ++ '/' :: v.versionStr ++ "/bin".data], []⟩

/-- C6, witness: the spec's ambiguous-candidate scenario — `python 3.12 3.11`
with only `3.11` installed resolves to `3.11` and is no error, and a plugin
with no installed candidate is dropped from the resolution. -/
theorem resolver_selection_and_skip_witness :
    resolveStep resolverCexIsDir resolverCexGetEnv Env.default
      ("python".data, [.version "3.12".data, .version "3.11".data]) =
      Env.merge Env.default (resolverCexGetEnv "python".data (.version "3.11".data)) ∧
    getTargetEnv resolverCexIsDir resolverCexGetEnv
      [("nodejs".data, [.version "18".data]),
        ("python".data, [.version "3.12".data, .version "3.11".data])] =
      getTargetEnv resolverCexIsDir resolverCexGetEnv
        [("python".data, [.version "3.12".data, .version "3.11".data])] :=
  ⟨(resolver_selection_and_skip resolverCexIsDir resolverCexGetEnv).1 Env.default
      "python".data [.version "3.12".data] (.version "3.11".data) [] (by decide) (by decide),
    (resolver_selection_and_skip resolverCexIsDir resolverCexGetEnv).2 []
      [("python".data, [.version "3.12".data, .version "3.11".data])]
      "nodejs".data [.version "18".data] (by decide)⟩


/-! ## The plugin script façade (`src/lib/src/scripts.rs`)

One plugin's script directory, with the filesystem passed in as predicates
(`isFile`/`isDir` over the modelled absolute paths) and script execution as
the output function `runOut` (scripts are assumed to exit 0; `run_script`
failures are orthogonal to the claims settled here).  `PathBuf::join` is
modelled as `joinPath`. -/

def joinPath (a b : Str) : Str := a ++ '/' :: b

def ASDF_INSTALL_TYPE : Str := "ASDF_INSTALL_TYPE".data

def ASDF_INSTALL_VERSION : Str := "ASDF_INSTALL_VERSION".data

def ASDF_INSTALL_PATH : Str := "ASDF_INSTALL_PATH".data

def ASDF_DOWNLOAD_PATH : Str := "ASDF_DOWNLOAD_PATH".data

def ASDF_CONCURRENCY : Str := "ASDF_CONCURRENCY".data

def ASDF_PLUGIN_PATH : Str := "ASDF_PLUGIN_PATH".data

def ASDF_PLUGIN_PREV_REF : Str := "ASDF_PLUGIN_PREV_REF".data

def ASDF_PLUGIN_POST_REF : Str := "ASDF_PLUGIN_POST_REF".data

/-- `PluginScriptError` from `src/lib/src/scripts.rs` (payloads of the
`Io`/`InvalidOutput` variants elided). -/
inductive PluginScriptError where
  | scriptFailed (output : Str)
  | scriptNotFound (script : Str)
  | io
  | invalidOutput
  | versionNotInstalled (plugin version : Str)
  | versionAlreadyInstalled (plugin version : Str)
  | noVersionsFound
  | noMatchingVersionsFound (query : Str)
deriving DecidableEq, Repr

structure PluginCtx where
  name : Str
  pluginDir : Str
  installDir : Str
  downloadDir : Str
  isFile : Str → Bool
  isDir : Str → Bool
  runOut : Str → Str

/-- The read effects and writes `install` performs, in order. -/
inductive FsEffect where
  | checkIsFile (p : Str)
  | checkIsDir (p : Str)
  | createDirAll (p : Str)
  | runScript (p : Str) (env : List (Str × Str))
deriving DecidableEq, Repr

/-- `PluginScripts::list_all`: requires `bin/list-all`, splits its trimmed
stdout on spaces. -/
def listAll (ctx : PluginCtx) : Except PluginScriptError (List Str) :=
  if ctx.isFile (joinPath ctx.pluginDir "bin/list-all".data) then
    .ok (splitChar ' ' (trimStr (ctx.runOut (joinPath ctx.pluginDir "bin/list-all".data))))
  else .error (.scriptNotFound (joinPath ctx.pluginDir "bin/list-all".data))

/-- `PluginScripts::find_version`: a `Remote` query must occur in `list_all`
(else `NoVersionsFound`); the other variants pass through unvalidated. -/
def findVersion (ctx : PluginCtx) (version : Str) : Except PluginScriptError Version :=
  match Version.parse version with
  | .version version_str =>
    (listAll ctx).bind (fun versions =>
      match versions.find? (fun raw => version_str = raw) with
      | some raw => .ok (Version.parse raw)
      | none => .error .noVersionsFound)
  | parsed => .ok parsed

/-- `PluginScripts::latest`: the last entry of `list_all`. -/
def latest (ctx : PluginCtx) : Except PluginScriptError Version :=
  (listAll ctx).bind (fun versions =>
    match versions.getLast? with
    | some raw => .ok (Version.parse raw)
    | none => .error .noVersionsFound)

/-- A substring occurrence test. -/
def containsSub (pat : Str) : Str → Bool
  | [] => pat.isPrefixOf []
  | c :: rest => pat.isPrefixOf (c :: rest) || containsSub pat rest

/-- `(a|b|c)[0-9]+` as a substring: a letter `a`/`b`/`c` immediately followed
by a digit. -/
def hasAbcDigit : Str → Bool
  | [] => false
  | [_] => false
  | c :: d :: rest =>
    ((c == 'a' || c == 'b' || c == 'c') && d.isDigit) || hasAbcDigit (d :: rest)

/-- `LATEST_STABLE_RE.is_match`: the unanchored regex
`-src|-dev|-latest|-stm|[-\.]rc|-alpha|-beta|[-\.]pre|-next|(a|b|c)[0-9]+|snapshot|master`
holds exactly when one of the literal alternatives occurs as a substring or
some `a`/`b`/`c` is immediately followed by a digit. -/
def latestStableDeny (s : Str) : Bool :=
  containsSub "-src".data s || containsSub "-dev".data s || containsSub "-latest".data s ||
  containsSub "-stm".data s || containsSub "-rc".data s || containsSub ".rc".data s ||
  containsSub "-alpha".data s || containsSub "-beta".data s || containsSub "-pre".data s ||
  containsSub ".pre".data s || containsSub "-next".data s || containsSub "snapshot".data s ||
  containsSub "master".data s || hasAbcDigit s

/-- `PluginScripts::latest_stable`: the trimmed output of the
`latest-stable` script when it exists, else the last `list_all` entry not
matching the denylist, else `NoMatchingVersionsFound("latest-stable")`. -/
def latestStable (ctx : PluginCtx) : Except PluginScriptError Version :=
  if ¬ ctx.isFile (joinPath ctx.pluginDir "bin/latest-stable".data) then
    (listAll ctx).bind (fun all =>
      match (all.filter (fun version => ¬ latestStableDeny version)).getLast? with
      | some version => .ok (Version.parse version)
      | none => .error (.noMatchingVersionsFound "latest-stable".data))
  else .ok (Version.parse (trimStr (ctx.runOut (joinPath ctx.pluginDir "bin/latest-stable".data))))

/-- `PluginScripts::resolve`. -/
def resolve (ctx : PluginCtx) (version : Str) : Except PluginScriptError Version :=
  if version = "latest".data then latest ctx
  else if version = "latest-stable".data then latestStable ctx
  else findVersion ctx version

/-- `PluginScripts::install` with its effect trace; `concurrency` is the
caller-resolved parallelism value (the source falls back to the thread count
or 1). -/
def install (ctx : PluginCtx) (version : Version) (concurrency : Nat) :
    Except PluginScriptError Str × List FsEffect :=
  if version = .system then (.ok [], [])
  else
    if ¬ ctx.isFile (joinPath ctx.pluginDir "bin/install".data) then
      (.error (.scriptNotFound (joinPath ctx.pluginDir "bin/install".data)),
        [.checkIsFile (joinPath ctx.pluginDir "bin/install".data)])
    else
      if ctx.isDir (joinPath ctx.installDir version.versionStr) then
        (.error (.versionAlreadyInstalled ctx.name version.raw),
          [.checkIsFile (joinPath ctx.pluginDir "bin/install".data),
            .checkIsDir (joinPath ctx.installDir version.versionStr)])
      else
        (.ok (ctx.runOut (joinPath ctx.pluginDir "bin/install".data)),
          [.checkIsFile (joinPath ctx.pluginDir "bin/install".data),
            .checkIsDir (joinPath ctx.installDir version.versionStr),
            .createDirAll (joinPath ctx.installDir version.versionStr),
            .runScript (joinPath ctx.pluginDir "bin/install".data)
              [(ASDF_INSTALL_TYPE, version.installType),
                (ASDF_INSTALL_VERSION, version.versionStr),
                (ASDF_INSTALL_PATH, joinPath ctx.installDir version.versionStr),
                (ASDF_DOWNLOAD_PATH, joinPath ctx.downloadDir version.versionStr),
                (ASDF_CONCURRENCY, natToStr concurrency)]])

/-- `PluginScripts::post_plugin_update` — note that the source checks and
runs `bin/post-plugin-add`, not `bin/post-plugin-update`. -/
def postPluginUpdate (ctx : PluginCtx) (prev post : Str) :
    Except PluginScriptError Unit × List FsEffect :=
  if ¬ ctx.isFile (joinPath ctx.pluginDir "bin/post-plugin-add".data) then
    (.ok (), [.checkIsFile (joinPath ctx.pluginDir "bin/post-plugin-add".data)])
  else
    (.ok (), [.checkIsFile (joinPath ctx.pluginDir "bin/post-plugin-add".data),
      .runScript (joinPath ctx.pluginDir "bin/post-plugin-add".data)
        [(ASDF_PLUGIN_PATH, ctx.pluginDir),
          (ASDF_PLUGIN_PREV_REF, prev),
          (ASDF_PLUGIN_POST_REF, post)]])

/-- `PluginScripts::pre_plugin_remove` — note that the source checks and
runs `bin/post-plugin-add`, not `bin/pre-plugin-remove`. -/
def prePluginRemove (ctx : PluginCtx) : Except PluginScriptError Unit × List FsEffect :=
  if ¬ ctx.isFile (joinPath ctx.pluginDir "bin/post-plugin-add".data) then
    (.ok (), [.checkIsFile (joinPath ctx.pluginDir "bin/post-plugin-add".data)])
  else
    (.ok (), [.checkIsFile (joinPath ctx.pluginDir "bin/post-plugin-add".data),
      .runScript (joinPath ctx.pluginDir "bin/post-plugin-add".data)
        [(ASDF_PLUGIN_PATH, ctx.pluginDir)]])


theorem version_parse_version_eq (q s : Str) (h : Version.parse q = .version s) : s = q := by
  unfold Version.parse at h
  split_ifs at h
  all_goals simp_all

theorem find?_eq_self (vs : List Str) (s : Str) (h : s ∈ vs) :
    vs.find? (fun raw => s = raw) = some s := by
  induction vs with
  | nil => simp at h
  | cons x rest ih =>
    by_cases hx : s = x
    · subst hx
      rw [List.find?_cons_of_pos _ (by simp)]
    · rw [List.find?_cons_of_neg _ (by simp [hx])]
      rcases List.mem_cons.mp h with h' | h'
      · exact absurd h' hx
      · exact ih h'

/-- C7: `resolve` behaves as specified — `latest` yields the last `list_all`
entry; `latest-stable` yields the script's trimmed output when the script
exists, else the last entry surviving the prerelease denylist, else
`NoMatchingVersionsFound("latest-stable")`; any other query is parsed, a
`Remote` parse must occur in `list_all` (else `NoVersionsFound`), and the
`Ref`/`Path`/`System` parses pass through unvalidated. -/
theorem resolve_spec (ctx : PluginCtx) :
    (∀ vs raw, listAll ctx = .ok vs → vs.getLast? = some raw →
      resolve ctx "latest".data = .ok (Version.parse raw)) ∧
    (ctx.isFile (joinPath ctx.pluginDir "bin/latest-stable".data) = true →
      resolve ctx "latest-stable".data =
        .ok (Version.parse (trimStr (ctx.runOut
          (joinPath ctx.pluginDir "bin/latest-stable".data))))) ∧
    (∀ vs, ctx.isFile (joinPath ctx.pluginDir "bin/latest-stable".data) = false →
      listAll ctx = .ok vs →
      (∀ raw, (vs.filter (fun t => ¬ latestStableDeny t)).getLast? = some raw →
        resolve ctx "latest-stable".data = .ok (Version.parse raw)) ∧
      ((vs.filter (fun t => ¬ latestStableDeny t)) = [] →
        resolve ctx "latest-stable".data =
          .error (.noMatchingVersionsFound "latest-stable".data))) ∧
    (∀ q s vs, q ≠ "latest".data → q ≠ "latest-stable".data →
      Version.parse q = .version s → listAll ctx = .ok vs →
      (s ∈ vs → resolve ctx q = .ok (.version s)) ∧
      (s ∉ vs → resolve ctx q = .error .noVersionsFound)) ∧
    (∀ q, q ≠ "latest".data → q ≠ "latest-stable".data →
      (∀ s, Version.parse q ≠ .version s) → resolve ctx q = .ok (Version.parse q)) := by
  refine ⟨?_, ?_, ?_, ?_, ?_⟩
  · intro vs raw hA hlast
    unfold resolve latest
    rw [if_pos rfl, hA]
    show (Except.ok vs).bind _ = _
    rw [Except.bind, hlast]
  · intro hfile
    unfold resolve latestStable
    rw [if_neg (by decide), if_pos rfl, if_neg (not_not_intro hfile)]
  · intro vs hnof hA
    constructor
    · intro raw hlast
      unfold resolve latestStable
      rw [if_neg (by decide), if_pos rfl, if_pos (by simp [hnof]), hA]
      show (Except.ok vs).bind _ = _
      rw [Except.bind, hlast]
    · intro hempty
      unfold resolve latestStable
      rw [if_neg (by decide), if_pos rfl, if_pos (by simp [hnof]), hA]
      show (Except.ok vs).bind _ = _
      rw [Except.bind, hempty]
      rfl
  · intro q s vs hq1 hq2 hparse hA
    have hsq : s = q := version_parse_version_eq q s hparse
    constructor
    · intro hmem
      unfold resolve findVersion
      rw [if_neg hq1, if_neg hq2, hparse, hA]
      show (Except.ok vs).bind _ = _
      rw [Except.bind, find?_eq_self vs s hmem]
      show Except.ok (Version.parse s) = Except.ok (Version.version s)
      rw [show Version.parse s = Version.version s from by subst hsq; exact hparse]
    · intro hnot
      unfold resolve findVersion
      rw [if_neg hq1, if_neg hq2, hparse, hA]
      show (Except.ok vs).bind _ = _
      rw [Except.bind, List.find?_eq_none.mpr ?_]
      intro x hx
      simp only [decide_eq_true_eq]
      rintro rfl
      exact hnot hx
  · intro q hq1 hq2 hnv
    unfold resolve findVersion
    rw [if_neg hq1, if_neg hq2]
    cases hp : Version.parse q with
    | version s => exact absurd hp (hnv s)
    | ref t => rfl
    | path t => rfl
    | system => rfl

def resolveCexCtx : PluginCtx :=
  { name := "nodejs".data
    pluginDir := "plugins/nodejs".data
    installDir := "installs/nodejs".data
    downloadDir := "downloads/nodejs".data
    isFile := fun p => p = "plugins/nodejs/bin/list-all".data
    isDir := fun _ => false
    runOut := fun _ => "1.0 2.0-rc1 2.0".data }

/-- C7, witness: with `list-all` printing `1.0 2.0-rc1 2.0` and no
`latest-stable` script — `latest` picks `2.0`, `latest-stable` filters out
the prerelease and picks `2.0`, an exact listed query passes, an unlisted
remote query is `NoVersionsFound`, and a `ref:` query passes unvalidated. -/
theorem resolve_spec_witness :
    resolve resolveCexCtx "latest".data = .ok (.version "2.0".data) ∧
    resolve resolveCexCtx "latest-stable".data = .ok (.version "2.0".data) ∧
    resolve resolveCexCtx "1.0".data = .ok (.version "1.0".data) ∧
    resolve resolveCexCtx "9.9".data = .error .noVersionsFound ∧
    resolve resolveCexCtx "ref:abc".data = .ok (.ref "abc".data) := by
  refine ⟨?_, ?_, ?_, ?_, ?_⟩
  · exact (resolve_spec resolveCexCtx).1 ["1.0".data, "2.0-rc1".data, "2.0".data] "2.0".data
      (by decide) (by decide)
  · exact (((resolve_spec resolveCexCtx).2.2.1 ["1.0".data, "2.0-rc1".data, "2.0".data]
      (by decide) (by decide)).1 "2.0".data (by decide))
  · exact ((resolve_spec resolveCexCtx).2.2.2.1 "1.0".data "1.0".data
      ["1.0".data, "2.0-rc1".data, "2.0".data] (by decide) (by decide) (by decide)
      (by decide)).1 (by decide)
  · exact ((resolve_spec resolveCexCtx).2.2.2.1 "9.9".data "9.9".data
      ["1.0".data, "2.0-rc1".data, "2.0".data] (by decide) (by decide) (by decide)
      (by decide)).2 (by decide)
  · exact (resolve_spec resolveCexCtx).2.2.2.2 "ref:abc".data (by decide) (by decide)
      (fun s h => by simp [show Version.parse "ref:abc".data = .ref "abc".data from by decide] at h)


/-- C9: `install` is a no-op success for `System` (no directory check, no
directory creation, no script run); otherwise — with the required `install`
script present — it rejects with `VersionAlreadyInstalled` when the version's
install directory already exists, and otherwise creates the install directory
before running the install script (the effect trace is exactly check-script,
check-dir, create-dir, run-script in that order). -/
theorem install_spec (ctx : PluginCtx) (version : Version) (conc : Nat) :
    (version = .system → install ctx version conc = (.ok [], [])) ∧
    (version ≠ .system →
      ctx.isFile (joinPath ctx.pluginDir "bin/install".data) = true →
      (ctx.isDir (joinPath ctx.installDir version.versionStr) = true →
        install ctx version conc =
          (.error (.versionAlreadyInstalled ctx.name version.raw),
            [.checkIsFile (joinPath ctx.pluginDir "bin/install".data),
              .checkIsDir (joinPath ctx.installDir version.versionStr)])) ∧
      (ctx.isDir (joinPath ctx.installDir version.versionStr) = false →
        install ctx version conc =
          (.ok (ctx.runOut (joinPath ctx.pluginDir "bin/install".data)),
            [.checkIsFile (joinPath ctx.pluginDir "bin/install".data),
              .checkIsDir (joinPath ctx.installDir version.versionStr),
              .createDirAll (joinPath ctx.installDir version.versionStr),
              .runScript (joinPath ctx.pluginDir "bin/install".data)
                [(ASDF_INSTALL_TYPE, version.installType),
                  (ASDF_INSTALL_VERSION, version.versionStr),
                  (ASDF_INSTALL_PATH, joinPath ctx.installDir version.versionStr),
                  (ASDF_DOWNLOAD_PATH, joinPath ctx.downloadDir version.versionStr),
                  (ASDF_CONCURRENCY, natToStr conc)]]))) := by
  constructor
  · intro hv
    subst hv
    unfold install
    rw [if_pos rfl]
  · intro hv hf
    constructor
    · intro hd
      unfold install
      rw [if_neg hv, if_neg (not_not_intro hf), if_pos hd]
    · intro hd
      unfold install
      rw [if_neg hv, if_neg (not_not_intro hf), if_neg (by simp [hd])]

def installCexCtx : PluginCtx :=
  { name := "nodejs".data
    pluginDir := "plugins/nodejs".data
    installDir := "installs/nodejs".data
    downloadDir := "downloads/nodejs".data
    isFile := fun p => p = "plugins/nodejs/bin/install".data
    isDir := fun p => p = "installs/nodejs/18.17.1".data
    runOut := fun _ => "done".data }

/-- C9, witness: with the install script present and `18.17.1` already
installed — `system` installs as a no-op, reinstalling `18.17.1` is
`VersionAlreadyInstalled`, and installing `19.0.0` creates the directory and
then runs the script. -/
theorem install_spec_witness :
    install installCexCtx .system 1 = (.ok [], []) ∧
    install installCexCtx (.version "18.17.1".data) 1 =
      (.error (.versionAlreadyInstalled "nodejs".data "18.17.1".data),
        [.checkIsFile "plugins/nodejs/bin/install".data,
          .checkIsDir "installs/nodejs/18.17.1".data]) ∧
    install installCexCtx (.version "19.0.0".data) 1 =
      (.ok "done".data,
        [.checkIsFile "plugins/nodejs/bin/install".data,
          .checkIsDir "installs/nodejs/19.0.0".data,
          .createDirAll "installs/nodejs/19.0.0".data,
          .runScript "plugins/nodejs/bin/install".data
            [(ASDF_INSTALL_TYPE, "version".data),
              (ASDF_INSTALL_VERSION, "19.0.0".data),
              (ASDF_INSTALL_PATH, "installs/nodejs/19.0.0".data),
              (ASDF_DOWNLOAD_PATH, "downloads/nodejs/19.0.0".data),
              (ASDF_CONCURRENCY, "1".data)]]) := by
  refine ⟨(install_spec installCexCtx .system 1).1 rfl, ?_, ?_⟩
  · rw [((install_spec installCexCtx (.version "18.17.1".data) 1).2 (by decide) (by decide)).1
      (by decide)]
    decide
  · rw [((install_spec installCexCtx (.version "19.0.0".data) 1).2 (by decide) (by decide)).2
      (by decide)]
    decide

def hookCexCtx : PluginCtx :=
  { name := "nodejs".data
    pluginDir := "plugins/nodejs".data
    installDir := "installs/nodejs".data
    downloadDir := "downloads/nodejs".data
    isFile := fun p => p = "plugins/nodejs/bin/post-plugin-update".data ∨
      p = "plugins/nodejs/bin/pre-plugin-remove".data
    isDir := fun _ => false
    runOut := fun _ => [] }

/-- C10: the lifecycle hooks run the wrong script.  With a plugin that has
`bin/post-plugin-update` and `bin/pre-plugin-remove` (and no
`bin/post-plugin-add`), both `post_plugin_update` and `pre_plugin_remove`
only check `bin/post-plugin-add` and return success without running anything,
although the claim (and the functions' own progress messages) require the
script of each hook's own name to run. -/
theorem plugin_hooks_run_wrong_script :
    hookCexCtx.isFile (joinPath hookCexCtx.pluginDir "bin/post-plugin-update".data) = true ∧
    hookCexCtx.isFile (joinPath hookCexCtx.pluginDir "bin/pre-plugin-remove".data) = true ∧
    postPluginUpdate hookCexCtx "prev-ref".data "post-ref".data =
      (.ok (), [.checkIsFile "plugins/nodejs/bin/post-plugin-add".data]) ∧
    prePluginRemove hookCexCtx =
      (.ok (), [.checkIsFile "plugins/nodejs/bin/post-plugin-add".data]) := by
  refine ⟨by decide, by decide, by decide, by decide⟩

end Qwer
